import Mathlib

/-!
# Verification of the Kanizsa adjective-agent vocabulary engine

Shallow embedding of the vocabulary acquisition and adjective-selection
engine (`ExpandableVocabularyManager` and `AdjectiveAgent`), together with
theorems settling the specification's claims about it.

Modelling conventions:
* JavaScript objects (string-keyed, insertion-ordered) are association
  lists `List (String × α)`; `obj[k] = v` is `upsert` (update in place if
  the key exists, append otherwise), matching JS key-ordering semantics.
* JavaScript numbers are `ℚ` for the confidence scores and `ℕ` for the
  integer frequency counters.
* `toLowerCase`/`trim` act on ASCII text, as all vocabulary data does.
* The wall-clock `lastUsed` timestamp of a learning record is not
  modelled: no operation of the engine ever reads it.
-/

namespace Kanizsa

/-! ## ASCII string primitives -/

/-- ASCII lower-casing of one character, as `String.prototype.toLowerCase`
acts on the ASCII range. -/
def lowerChar (c : Char) : Char :=
  if 'A' ≤ c ∧ c ≤ 'Z' then Char.ofNat (c.toNat + 32) else c

/-- Is `c` an ASCII letter (`[a-zA-Z]`)? -/
def isAsciiLetter (c : Char) : Bool :=
  ('a' ≤ c && c ≤ 'z') || ('A' ≤ c && c ≤ 'Z')

/-- Is `c` a word character in the sense of the regex `\b` boundary
(`[A-Za-z0-9_]`)? -/
def isWordCharB (c : Char) : Bool :=
  isAsciiLetter c || ('0' ≤ c && c ≤ '9') || c == '_'

/-- Is `c` whitespace in the sense of the regex class `\s` (ASCII range)? -/
def isSpaceB (c : Char) : Bool :=
  c == ' ' || c == '\t' || c == '\n' || c == '\r' ||
  c == '\x0b' || c == '\x0c'

/-- Models `String.prototype.toLowerCase` on ASCII text. -/
def lowerStr (s : String) : String :=
  String.mk (s.toList.map lowerChar)

/-- Models `String.prototype.trim` (ASCII whitespace). -/
def trimStr (s : String) : String :=
  String.mk (((s.toList.dropWhile isSpaceB).reverse.dropWhile isSpaceB).reverse)

/-- Normalisation `adjective.toLowerCase().trim()`: the normalisation applied to every
word entering the vocabulary store. -/
def normalizeWord (w : String) : String :=
  trimStr (lowerStr w)

/-- Does the character list `hay` contain `pat` as a contiguous
sub-list? Models `String.prototype.includes`. -/
def isPrefixL : List Char → List Char → Bool
  | [], _ => true
  | _ :: _, [] => false
  | a :: as, b :: bs => a == b && isPrefixL as bs

/-- Substring containment on character lists
(`hay.includes(pat)` of JavaScript). -/
def containsL (pat : List Char) : List Char → Bool
  | [] => pat.isEmpty
  | c :: rest => isPrefixL pat (c :: rest) || containsL pat rest

/-- Substring test `hay.includes(pat)` on strings. -/
def containsSub (hay pat : String) : Bool :=
  containsL pat.toList hay.toList

/-! ## Association lists mirroring JavaScript objects -/

/-- Lookup in an insertion-ordered string-keyed object. -/
def lookupA {α : Type} : List (String × α) → String → Option α
  | [], _ => none
  | (k, v) :: rest, key => if k = key then some v else lookupA rest key

/-- Assignment `obj[k] = v`: update in place if `k` is a key already, append
otherwise (JavaScript objects keep the original key position on
re-assignment and append new keys). -/
def upsert {α : Type} : List (String × α) → String → α → List (String × α)
  | [], k, v => [(k, v)]
  | p :: rest, k, v => if p.1 = k then (k, v) :: rest else p :: upsert rest k v

/-- Models `Set.prototype.add`: insert if not already present. -/
def setAdd (l : List String) (x : String) : List String :=
  if x ∈ l then l else l ++ [x]

/-! ## The category classifier (`detectCategory`) -/

/-- Source `ExpandableVocabularyManager.detectCategory`: hand-curated indicator
keyword lists tried in a fixed order (mood, visual, temporal, spatial,
emotional), then context-derived defaults. -/
def detectCategory (adjective context : String) : String :=
  let word := lowerStr adjective
  if ["happy", "sad", "angry", "excited", "calm", "nervous", "relaxed", "tense"].contains word then
    "mood"
  else if ["bright", "dark", "colorful", "dull", "shiny", "matte", "clear", "blurry"].contains word then
    "visual"
  else if ["old", "new", "ancient", "modern", "temporary", "permanent", "quick", "slow"].contains word then
    "temporal"
  else if ["large", "small", "wide", "narrow", "deep", "shallow", "near", "far"].contains word then
    "spatial"
  else if ["loving", "hateful", "caring", "cold", "warm", "passionate", "indifferent"].contains word then
    "emotional"
  else if context = "title" ∨ context = "description" then
    "descriptive"
  else if context = "tag" then
    "categorized"
  else
    "descriptive"

/-! ## The candidate filter -/

/-- The function-word stoplist of `isValidAdjective`. -/
def functionStopWords : List String :=
  ["the", "a", "an", "and", "or", "but", "in", "on", "at", "to", "for", "of", "with", "by",
   "is", "are", "was", "were", "be", "been", "being", "have", "has", "had", "do", "does", "did",
   "will", "would", "could", "should", "may", "might", "can", "this", "that", "these", "those"]

/-- Source `ExpandableVocabularyManager.isValidAdjective`: length above 2, not a
stoplisted function word, only letters and hyphens. -/
def isValidAdjective (word : String) : Bool :=
  word.length > 2 && !(functionStopWords.contains word) &&
    (word.toList.length > 0 && word.toList.all (fun c => isAsciiLetter c || c == '-'))

/-- Source `ExpandableVocabularyManager.isCommonWord`: the generic-adjective
stoplist applied during learning. -/
def isCommonWord (word : String) : Bool :=
  ["good", "bad", "big", "small", "new", "old", "high", "low", "long", "short",
   "right", "left", "up", "down", "in", "out", "on", "off", "over", "under"].contains word

/-! ## The word extractor (the four scan passes of `learnFromText`)

Each pass models one of the global regexes over the input text.  A match
of `\b([a-zA-Z]+suffix)\b` must cover a whole maximal run of word
characters (`\b` holds only at the edges of such runs) and that run must
consist purely of letters; the greedy `[a-zA-Z]+` then succeeds exactly
when the run ends in the suffix with at least one letter before it. -/

/-- Maximal runs of characters satisfying `p`, in order. -/
def splitRunsAux (p : Char → Bool) : List Char → List Char → List (List Char)
  | [], cur => if cur.isEmpty then [] else [cur.reverse]
  | c :: rest, cur =>
    if p c then splitRunsAux p rest (c :: cur)
    else if cur.isEmpty then splitRunsAux p rest []
    else cur.reverse :: splitRunsAux p rest []

/-- Maximal runs of characters satisfying `p`. -/
def splitRuns (p : Char → Bool) (l : List Char) : List (List Char) :=
  splitRunsAux p l []

/-- The maximal word-character runs of the text (the `\b`-delimited
tokens). -/
def wordTokens (text : String) : List (List Char) :=
  splitRuns isWordCharB text.toList

/-- Does the (lower-cased) token end in `suffix` with at least one
character before it (the `[a-zA-Z]+` of the pattern)? -/
def endsWithProper (tok : List Char) (suffix : List Char) : Bool :=
  decide (suffix.length < tok.length) && isPrefixL suffix.reverse tok.reverse

/-- The suffix alternatives of the first extraction pattern
`\b([a-zA-Z]+(?:ing|ed|ful|ous|ive|al|ic|able|ible|less|like|ish|y))\b`. -/
def suffixes1 : List (List Char) :=
  ["ing", "ed", "ful", "ous", "ive", "al", "ic", "able", "ible", "less", "like", "ish", "y"].map
    String.toList

/-- The suffix alternatives of the second extraction pattern
`\b([a-zA-Z]+(?:er|est))\b`. -/
def suffixes2 : List (List Char) :=
  ["er", "est"].map String.toList

/-- Matches of one suffix-shape pattern (case-insensitive): the
`\b`-delimited all-letter tokens that end, after lower-casing, in one of
the suffix alternatives. Matches are returned in text order with their
original casing, as `String.prototype.match` does. -/
def suffixMatches (suffixes : List (List Char)) (text : String) : List String :=
  ((wordTokens text).filter fun tok =>
      tok.all isAsciiLetter && suffixes.any (endsWithProper (tok.map lowerChar))).map
    String.mk

/-- Split a character run on hyphens, keeping empty parts (ordinary
string split). -/
def splitOnDash : List Char → List (List Char)
  | [] => [[]]
  | c :: rest =>
    if c == '-' then [] :: splitOnDash rest
    else
      match splitOnDash rest with
      | h :: t => (c :: h) :: t
      | [] => [[c]]

/-- A part of a hyphen run usable as one side of `[a-zA-Z]+-[a-zA-Z]+`:
non-empty and purely letters (a digit or underscore either breaks the
character class or destroys the adjacent `\b`). -/
def dashPartOk (part : List Char) : Bool :=
  !part.isEmpty && part.all isAsciiLetter

/-- The hyphenated-compound matches within one run, mirroring the regex
engine's scan: a match consumes its two parts, and a part that cannot
participate is skipped. -/
def dashPairs : List (List Char) → List String
  | p1 :: p2 :: rest =>
    if dashPartOk p1 && dashPartOk p2 then
      String.mk (p1 ++ '-' :: p2) :: dashPairs rest
    else dashPairs (p2 :: rest)
  | _ => []

/-- Matches of the third extraction pattern
`\b([a-zA-Z]+-[a-zA-Z]+)\b`: scan the maximal runs of word characters
and hyphens, pairing up hyphen-separated letter parts. -/
def hyphenMatches (text : String) : List String :=
  (splitRuns (fun c => isWordCharB c || c == '-') text.toList).flatMap
    fun run => dashPairs (splitOnDash run)

/-- One attempted match of
`\b([a-zA-Z]+)\s+(?:and|or)\s+([a-zA-Z]+)\b` starting at the head of
`l` (which is known to begin a letter at a word boundary). Returns the
full matched text and the remaining input. -/
def tryMatchP4 (l : List Char) : Option (List Char × List Char) :=
  let w1 := l.takeWhile isAsciiLetter
  let r1 := l.dropWhile isAsciiLetter
  let sp1 := r1.takeWhile isSpaceB
  let r2 := r1.dropWhile isSpaceB
  if sp1.isEmpty then none
  else
    let tryConj : List Char → Option (List Char × List Char) := fun conj =>
      if (r2.take conj.length).map lowerChar == conj then
        let conjTxt := r2.take conj.length
        let r3 := r2.drop conj.length
        let sp2 := r3.takeWhile isSpaceB
        let r4 := r3.dropWhile isSpaceB
        if sp2.isEmpty then none
        else
          let w2 := r4.takeWhile isAsciiLetter
          let r5 := r4.dropWhile isAsciiLetter
          if w2.isEmpty then none
          else if (r5.headD ' ' |> isWordCharB) then none
          else some (w1 ++ sp1 ++ conjTxt ++ sp2 ++ w2, r5)
      else none
    match tryConj ['a', 'n', 'd'] with
    | some res => some res
    | none => tryConj ['o', 'r']

/-- The left-to-right scan of the fourth pattern with `lastIndex`
advancement: after a match the scan resumes after the matched text.
`fuel` bounds the recursion and is initialised to the text length, which
suffices since every step consumes at least one character. -/
def p4ScanAux : Nat → Bool → List Char → List String
  | 0, _, _ => []
  | _ + 1, _, [] => []
  | fuel + 1, prevIsWord, c :: rest =>
    if !prevIsWord && isAsciiLetter c then
      match tryMatchP4 (c :: rest) with
      | some (m, remaining) => String.mk m :: p4ScanAux fuel true remaining
      | none => p4ScanAux fuel (isWordCharB c) rest
    else p4ScanAux fuel (isWordCharB c) rest

/-- Matches of the fourth extraction pattern
`\b([a-zA-Z]+)\s+(?:and|or)\s+([a-zA-Z]+)\b`. `String.prototype.match`
with the global flag returns the full matched phrases (the capture
groups are discarded), so every element contains interior whitespace. -/
def phraseMatches (text : String) : List String :=
  p4ScanAux text.toList.length false text.toList

/-- All raw candidates of `learnFromText`: the four passes in source
order, each match lower-cased and trimmed
(`match.toLowerCase().trim()`). -/
def extractCandidates (text : String) : List String :=
  (suffixMatches suffixes1 text ++ suffixMatches suffixes2 text ++
      hyphenMatches text ++ phraseMatches text).map
    fun m => trimStr (lowerStr m)

/-! ## The vocabulary store -/

/-- A per-word learning record (`LearningData` of `types.ts`). The
`lastUsed` ISO timestamp is not modelled: nothing in the engine reads
it. -/
structure LearningData where
  adjective : String
  category : String
  context : String
  frequency : ℕ
  confidence : ℚ
deriving DecidableEq, Repr

/-- The mutable vocabulary state (`VocabularyManager` of `types.ts`).
JavaScript objects become insertion-ordered association lists and the
`customCategories` `Set` becomes a duplicate-free list. -/
structure VocabularyManager where
  categories : List (String × List String)
  learningData : List (String × LearningData)
  customCategories : List String
  adjectiveFrequency : List (String × ℕ)
  contextPatterns : List (String × List String)
deriving DecidableEq, Repr

/-- The seeded store built by the `ExpandableVocabularyManager`
constructor. -/
def freshVocabulary : VocabularyManager where
  categories :=
    [("mood", ["serene", "vibrant", "melancholic", "energetic", "peaceful", "dramatic", "whimsical", "mysterious"]),
     ("visual", ["luminous", "shadowy", "colorful", "monochromatic", "textured", "smooth", "geometric", "organic"]),
     ("temporal", ["timeless", "nostalgic", "modern", "vintage", "ephemeral", "eternal", "fleeting", "enduring"]),
     ("spatial", ["expansive", "intimate", "vast", "confined", "open", "layered", "minimal", "dense"]),
     ("emotional", ["inspiring", "contemplative", "joyful", "somber", "hopeful", "introspective", "uplifting", "profound"])]
  learningData := []
  customCategories := []
  adjectiveFrequency := []
  contextPatterns := []

/-- Source `ExpandableVocabularyManager.calculateConfidence`: base `0.5`, plus
`0.1` per context-pattern list currently containing the word, plus
`min(frequency * 0.05, 0.3)` for the word's current frequency-table
count, plus `0.1` for a `title`/`description` triggering context,
capped at `1`. It reads the aggregates as they stand when called. -/
def calculateConfidence (s : VocabularyManager) (adjective context : String) : ℚ :=
  let base : ℚ := 1/2
  let contextsCount := (s.contextPatterns.filter (fun p => adjective ∈ p.2)).length
  let c1 := base + (contextsCount : ℚ) * (1/10)
  let frequency := (lookupA s.adjectiveFrequency adjective).getD 0
  let c2 := c1 + min ((frequency : ℚ) * (1/20)) (3/10)
  let c3 := if context = "title" ∨ context = "description" then c2 + 1/10 else c2
  min c3 1

/-- Source `ExpandableVocabularyManager.addAdjective`, performing the source's
mutations in order: create the category (marking it custom) if absent,
append the normalised word to the category list if not present, upsert
the learning record (whose confidence is computed *at this point*, before
the frequency increment and context-pattern insertion below), increment
the frequency table, and append to the context's pattern list if not
present. -/
def addAdjective (s : VocabularyManager) (adjective category context : String) :
    VocabularyManager :=
  let w := normalizeWord adjective
  let s :=
    if (lookupA s.categories category).isSome then s
    else { s with
            categories := s.categories ++ [(category, [])]
            customCategories := setAdd s.customCategories category }
  let ws := (lookupA s.categories category).getD []
  let s :=
    if w ∈ ws then s
    else { s with categories := upsert s.categories category (ws ++ [w]) }
  let oldFreq := (lookupA s.adjectiveFrequency w).getD 0
  let s :=
    { s with
       learningData := upsert s.learningData w
         { adjective := w
           category := category
           context := context
           frequency := oldFreq + 1
           confidence := calculateConfidence s w context } }
  let s := { s with adjectiveFrequency := upsert s.adjectiveFrequency w (oldFreq + 1) }
  let s :=
    if (lookupA s.contextPatterns context).isSome then s
    else { s with contextPatterns := s.contextPatterns ++ [(context, [])] }
  let cl := (lookupA s.contextPatterns context).getD []
  if w ∈ cl then s
  else { s with contextPatterns := upsert s.contextPatterns context (cl ++ [w]) }

/-- Source `ExpandableVocabularyManager.learnFromText`: run the four extraction
passes, and for every candidate passing both filters add it (under its
detected category) and record it in the returned list. -/
def learnFromText (s : VocabularyManager) (text context : String) :
    VocabularyManager × List String :=
  (extractCandidates text).foldl
    (fun acc adjective =>
      if isValidAdjective adjective && !isCommonWord adjective then
        (addAdjective acc.1 adjective (detectCategory adjective context) context,
         acc.2 ++ [adjective])
      else acc)
    (s, [])

/-! ## Read operations and snapshot I/O -/

/-- The statistics record returned by `getVocabularyStats`
(`VocabularyStats` of `types.ts`). -/
structure VocabularyStats where
  totalAdjectives : ℕ
  categories : ℕ
  newAdjectivesLearned : ℕ
  categoryBreakdown : List (String × ℕ)
deriving DecidableEq, Repr

/-- Source `ExpandableVocabularyManager.getVocabularyStats`: recomputed from the
live category lists and learning records on every call. -/
def getVocabularyStats (s : VocabularyManager) : VocabularyStats where
  totalAdjectives := (s.categories.map (fun p => p.2.length)).sum
  categories := s.categories.length
  newAdjectivesLearned := s.learningData.length
  categoryBreakdown := s.categories.map (fun p => (p.1, p.2.length))

/-- Source `ExpandableVocabularyManager.getAdjectivesByCategory`: the category's
list, or the empty list for an unknown category. -/
def getAdjectivesByCategory (s : VocabularyManager) (category : String) : List String :=
  (lookupA s.categories category).getD []

/-- Stable insertion step for the descending frequency sort: a new
element goes before the first element it is greater than or equal to,
so earlier entries stay first among equal frequencies, as the engine's
stable sort does. -/
def insertFreqDesc (x : String × ℕ) : List (String × ℕ) → List (String × ℕ)
  | [] => [x]
  | y :: rest => if x.2 ≥ y.2 then x :: y :: rest else y :: insertFreqDesc x rest

/-- Stable descending sort of frequency entries
(`sort(([, a], [, b]) => b - a)`). -/
def sortFreqDesc (l : List (String × ℕ)) : List (String × ℕ) :=
  l.foldr insertFreqDesc []

/-- Source `ExpandableVocabularyManager.getMostFrequentAdjectives`. -/
def getMostFrequentAdjectives (s : VocabularyManager) (limit : ℕ) : List (String × ℕ) :=
  (sortFreqDesc s.adjectiveFrequency).take limit

/-- The effect of `JSON.parse(JSON.stringify(v))` on the store: plain
objects, arrays, strings and numbers survive unchanged, but a `Set` has
no enumerable own properties, so `customCategories` serialises to the
empty plain object `\x7b\x7d` — after parsing it carries no entries (and is no
longer a `Set`). -/
def jsonRoundTrip (v : VocabularyManager) : VocabularyManager :=
  { v with customCategories := [] }

/-- Source `ExpandableVocabularyManager.exportVocabulary`:
`JSON.parse(JSON.stringify(this.vocabulary))`. -/
def exportVocabulary (s : VocabularyManager) : VocabularyManager :=
  jsonRoundTrip s

/-- Source `ExpandableVocabularyManager.importVocabulary`: the live state is
discarded and replaced wholesale by the JSON round-trip of the given
snapshot. -/
def importVocabulary (_s : VocabularyManager) (snapshot : VocabularyManager) :
    VocabularyManager :=
  jsonRoundTrip snapshot

/-! ## The selector (`generateAdjectives`) -/

/-- The photo record as the engine reads it. The transport fields
(`path`, `filename`, `size`, `mimeType`, `createdAt`) of `types.ts` are
never consulted by the engine logic and are not modelled. An absent
optional field is `none`; JavaScript truthiness additionally treats an
empty string as absent. -/
structure Photo where
  id : String
  title : Option String := none
  description : Option String := none
  tags : Option (List String) := none
  metadata : Option (List (String × String)) := none

/-- JavaScript truthiness of an optional string field: defined and
non-empty. -/
def strTruthy : Option String → Bool
  | none => false
  | some s => !(s == "")

/-- Worker for `dedupFirst`: `seen` holds the elements already
emitted. -/
def dedupFirstAux (seen : List String) : List String → List String
  | [] => []
  | a :: rest =>
    if a ∈ seen then dedupFirstAux seen rest
    else a :: dedupFirstAux (a :: seen) rest

/-- Models `[...new Set(l)]`: deduplication keeping the first occurrence of
each element, in insertion order. -/
def dedupFirst (l : List String) : List String :=
  dedupFirstAux [] l

/-- Source `ExpandableVocabularyManager.applySmartRules`: fixed thematic word
bundles appended when theme markers occur in the photo's title,
description or tags. -/
def applySmartRules (photo : Photo) : List String :=
  let title := lowerStr (photo.title.getD "")
  let description := lowerStr (photo.description.getD "")
  let tags := (photo.tags.getD []).map lowerStr
  (if containsSub title "sunset" || containsSub title "sunrise" ||
      containsSub description "sunset" || containsSub description "sunrise" then
    ["golden", "warm", "radiant", "glowing", "fiery", "amber", "crimson"]
  else []) ++
  (if containsSub title "night" || containsSub title "dark" ||
      containsSub description "night" || containsSub description "dark" then
    ["mysterious", "shadowy", "ethereal", "nocturnal", "twilight", "starry", "moonlit"]
  else []) ++
  (if containsSub title "nature" || containsSub title "forest" || containsSub title "mountain" ||
      tags.contains "nature" || tags.contains "forest" || tags.contains "mountain" then
    ["natural", "organic", "wild", "untamed", "pristine", "rustic", "earthy"]
  else []) ++
  (if containsSub title "city" || containsSub title "urban" || containsSub title "street" ||
      tags.contains "city" || tags.contains "urban" || tags.contains "street" then
    ["urban", "metropolitan", "cosmopolitan", "bustling", "dynamic", "modern", "architectural"]
  else []) ++
  (if containsSub title "water" || containsSub title "ocean" || containsSub title "river" ||
      containsSub title "lake" || tags.contains "water" || tags.contains "ocean" ||
      tags.contains "river" || tags.contains "lake" then
    ["flowing", "fluid", "reflective", "crystalline", "aquatic", "marine", "rippling"]
  else []) ++ []

/-- Stable insertion step for sorting adjectives by descending
frequency-table count. -/
def insertAdjByFreqDesc (s : VocabularyManager) (x : String) : List String → List String
  | [] => [x]
  | y :: rest =>
    if (lookupA s.adjectiveFrequency x).getD 0 ≥ (lookupA s.adjectiveFrequency y).getD 0 then
      x :: y :: rest
    else y :: insertAdjByFreqDesc s x rest

/-- Stable descending sort of adjectives by frequency-table count
(`sort((a, b) => freq[b] - freq[a])`, `undefined` counting as `0`). -/
def sortAdjsByFreqDesc (s : VocabularyManager) (l : List String) : List String :=
  l.foldr (insertAdjByFreqDesc s) []

/-- Source `ExpandableVocabularyManager.getLearnedAdjectives`: the words of
every context-pattern list whose context kind has content on the photo,
then the first five (sorted by descending frequency when
`preferFrequent`). -/
def getLearnedAdjectives (s : VocabularyManager) (photo : Photo) (preferFrequent : Bool) :
    List String :=
  let contextAdjectives := s.contextPatterns.foldl
    (fun acc p =>
      let acc := if p.1 = "title" ∧ strTruthy photo.title then acc ++ p.2 else acc
      let acc := if p.1 = "description" ∧ strTruthy photo.description then acc ++ p.2 else acc
      if p.1 = "tag" ∧ photo.tags.isSome then acc ++ p.2 else acc)
    []
  if preferFrequent then (sortAdjsByFreqDesc s contextAdjectives).take 5
  else contextAdjectives.take 5

/-- Source `ExpandableVocabularyManager.selectByFrequency`: `reduce` keeping the
first element of maximal frequency (strict comparison). The source only
calls it on non-empty lists (`reduce` without a seed throws otherwise);
the empty case is given the unreachable default `""`. -/
def selectByFrequency (s : VocabularyManager) : List String → String
  | [] => ""
  | a :: rest =>
    rest.foldl
      (fun best current =>
        if (lookupA s.adjectiveFrequency current).getD 0 >
            (lookupA s.adjectiveFrequency best).getD 0 then current
        else best)
      a

/-- The accumulated `generated` array of
`ExpandableVocabularyManager.generateAdjectives` before the final
dedupe-and-truncate: thematic words, then learned words (when
`useLearning`), then one pick per category. The non-deterministic
`Math.random()` pick is threaded as the oracle `pick`, consulted with a
running draw index and reduced modulo the number of eligible words. -/
def generatedPool (s : VocabularyManager) (photo : Photo) (existing : List String)
    (useLearning preferFrequent : Bool) (pick : ℕ → ℕ) : List String :=
  let generated := applySmartRules photo
  let generated :=
    if useLearning then generated ++ getLearnedAdjectives s photo preferFrequent
    else generated
  (s.categories.foldl
    (fun (acc : List String × ℕ) p =>
      let available := p.2.filter (fun adj => !existing.contains adj && !acc.1.contains adj)
      if available.length > 0 then
        let selected :=
          if preferFrequent then selectByFrequency s available
          else available.getD (pick acc.2 % available.length) ""
        (acc.1 ++ [selected], acc.2 + 1)
      else acc)
    (generated, 0)).1

/-- Source `ExpandableVocabularyManager.generateAdjectives`:
`[...new Set([...existing, ...generated])].slice(0, max)`. -/
def generateAdjectives (s : VocabularyManager) (photo : Photo) (existing : List String)
    (max : ℕ) (useLearning preferFrequent : Bool) (pick : ℕ → ℕ) : List String :=
  (dedupFirst (existing ++ generatedPool s photo existing useLearning preferFrequent pick)).take max

/-! ## Agent-side per-photo confidence -/

/-- Source `AdjectiveAgent.calculateConfidence`: the source's sequence of
truthiness-guarded additions followed by the cap at `1`. -/
def agentCalculateConfidence (photo : Photo) : ℚ :=
  let confidence : ℚ := 1/2
  let confidence := if strTruthy photo.title then confidence + 1/10 else confidence
  let confidence := if strTruthy photo.description then confidence + 1/5 else confidence
  let confidence :=
    if photo.tags.isSome ∧ (photo.tags.getD []).length > 0 then confidence + 1/10
    else confidence
  let confidence := if photo.metadata.isSome then confidence + 1/10 else confidence
  min confidence 1

/-! ## The untyped snapshot layer

`importVocabulary` takes an arbitrary caller-supplied value, and after
`this.vocabulary = JSON.parse(JSON.stringify(vocabulary))` the live
store is whatever JSON value the caller passed, conforming or not.  To
settle claims about malformed snapshots the store is modelled at the
level of JSON values. -/

/-- JSON values, as produced by `JSON.parse`. -/
inductive Json where
  | null : Json
  | bool : Bool → Json
  | num : ℚ → Json
  | str : String → Json
  | arr : List Json → Json
  | obj : List (String × Json) → Json
deriving Repr

/-- Serialisation of a learning record. -/
def encodeLearningData (d : LearningData) : Json :=
  .obj [("adjective", .str d.adjective), ("category", .str d.category),
        ("context", .str d.context), ("frequency", .num d.frequency),
        ("confidence", .num d.confidence)]

/-- Serialisation `JSON.parse(JSON.stringify(v))` of the live store as a JSON value:
objects, arrays, strings and numbers survive; the `customCategories`
`Set` has no enumerable own properties and serialises to the empty
plain object. -/
def encodeVocabulary (v : VocabularyManager) : Json :=
  .obj [("categories", .obj (v.categories.map fun p => (p.1, .arr (p.2.map .str)))),
        ("learningData", .obj (v.learningData.map fun p => (p.1, encodeLearningData p.2))),
        ("customCategories", .obj []),
        ("adjectiveFrequency", .obj (v.adjectiveFrequency.map fun p => (p.1, .num p.2))),
        ("contextPatterns", .obj (v.contextPatterns.map fun p => (p.1, .arr (p.2.map .str))))]

/-- Property access `store[k]` on a JSON value: `none` models the
JavaScript `undefined`. -/
def getFieldJs : Json → String → Option Json
  | .obj fields, k => lookupA fields k
  | _, _ => none

/-- Behaviour of `importVocabulary` on an arbitrary JSON-representable snapshot:
`JSON.parse(JSON.stringify ·)` is the identity on JSON values, and the
result replaces the live store unconditionally — the method has no
validation and no failure path for any JSON-representable input (only a
non-JSON-serialisable value, such as a cyclic object, would make
`JSON.stringify` itself throw). -/
def importVocabularyJs (snapshot : Json) : Json :=
  snapshot

/-- The length a category value contributes in
`getVocabularyStats` (`category.length`): defined for the arrays a
well-formed store holds. -/
def jsArrLength : Json → Option ℕ
  | .arr l => some l.length
  | _ => none

/-- Behaviour of `getVocabularyStats` as executed on the untyped post-import store.
Accessing `.categories`/`.learningData` on a store where they are
missing or not objects makes `Object.values`/`Object.keys` throw a
`TypeError`, modelled as `none`; a store whose category values are not
arrays is likewise rejected (the degenerate `NaN`-producing paths of the
runtime are outside the well-formed snapshots this model evaluates). -/
def getVocabularyStatsJs (store : Json) : Option VocabularyStats :=
  match getFieldJs store "categories", getFieldJs store "learningData" with
  | some (.obj catFields), some (.obj ldFields) =>
    if (catFields.map fun p => jsArrLength p.2).all Option.isSome then
      some { totalAdjectives := (catFields.map fun p => (jsArrLength p.2).getD 0).sum
             categories := catFields.length
             newAdjectivesLearned := ldFields.length
             categoryBreakdown := catFields.map fun p => (p.1, (jsArrLength p.2).getD 0) }
    else none
  | _, _ => none

/-! ## Derived definitions used by the claims -/

/-- The learning record written by one learn event, over the input
state's aggregates. -/
def learnRecord (s : VocabularyManager) (a c ctx : String) : LearningData where
  adjective := normalizeWord a
  category := c
  context := ctx
  frequency := (lookupA s.adjectiveFrequency (normalizeWord a)).getD 0 + 1
  confidence := calculateConfidence s (normalizeWord a) ctx

/-- States reachable from a fresh instance by learn/add operations.
Every public learning entry point (`learnFromText`, `learnFromPhoto`,
`addCustomAdjective`) mutates the store exclusively through
`addAdjective`, so these steps cover them all. -/
inductive Reachable : VocabularyManager → Prop
  | init : Reachable freshVocabulary
  | step (s : VocabularyManager) (a c ctx : String) :
      Reachable s → Reachable (addAdjective s a c ctx)

/-- Modelled from the spec: the per-word confidence formula exactly as
the claim states it — base `0.5`, `+0.1` for every distinct context in
which the word has been learned *counting the triggering event's
context*, `+ min(0.3, 0.05 × the then-current frequency)` (the
frequency including the triggering increment), `+0.1` for a
`title`/`description` trigger, clamped to `[0, 1]`. Compared against
the stored confidence to settle the claim. -/
def claimedConfidence (distinctContexts frequency : ℕ) (context : String) : ℚ :=
  max 0 (min (1/2 + (distinctContexts : ℚ) * (1/10) +
      min (3/10) ((frequency : ℚ) * (1/20)) +
      (if context = "title" ∨ context = "description" then 1/10 else 0)) 1)

/-- The per-word confidence formula as amended: computed from the
aggregates as they stand *before* the triggering event's own updates —
`+0.1` per distinct context in which the word had previously been
learned (not counting the trigger unless already present), `+ min(0.3,
0.05 × the pre-event frequency)`, `+0.1` for a `title`/`description`
trigger, clamped to `[0, 1]`. -/
def amendedConfidence (s : VocabularyManager) (w context : String) : ℚ :=
  max 0 (min (1/2 + ((s.contextPatterns.filter fun p => w ∈ p.2).length : ℚ) * (1/10) +
      min (3/10) (((lookupA s.adjectiveFrequency w).getD 0 : ℚ) * (1/20)) +
      (if context = "title" ∨ context = "description" then 1/10 else 0)) 1)

/-- Modelled from the spec: the per-photo confidence formula as the
claim states it, with a present title/description read as a defined,
non-empty field, present tags as a non-empty tag list and present
metadata as a supplied metadata map. -/
def specPhotoConfidence (photo : Photo) : ℚ :=
  min (1/2 + (if strTruthy photo.title then 1/10 else 0) +
      (if strTruthy photo.description then 1/5 else 0) +
      (if photo.tags.isSome ∧ (photo.tags.getD []).length > 0 then 1/10 else 0) +
      (if photo.metadata.isSome then 1/10 else 0)) 1

/-! ## Association-list lemmas -/

theorem lookupA_upsert_self {α : Type} (l : List (String × α)) (k : String) (v : α) :
    lookupA (upsert l k v) k = some v := by
  induction l with
  | nil => simp [upsert, lookupA]
  | cons p rest ih =>
    by_cases h : p.1 = k <;> simp [upsert, lookupA, h, ih]

theorem lookupA_upsert_ne {α : Type} (l : List (String × α)) (k k' : String) (v : α)
    (hne : k' ≠ k) : lookupA (upsert l k v) k' = lookupA l k' := by
  have hne' : ¬(k = k') := Ne.symm hne
  induction l with
  | nil => simp [upsert, lookupA, hne']
  | cons p rest ih =>
    by_cases h : p.1 = k
    · simp [upsert, lookupA, h, hne']
    · by_cases h2 : p.1 = k' <;> simp [upsert, lookupA, h, h2, ih, hne]

theorem lookupA_append {α : Type} (l₁ l₂ : List (String × α)) (k : String) :
    lookupA (l₁ ++ l₂) k = ((lookupA l₁ k).orElse fun _ => lookupA l₂ k) := by
  induction l₁ with
  | nil => simp [lookupA]
  | cons p rest ih =>
    by_cases h : p.1 = k <;> simp [lookupA, h, ih]

theorem lookupA_some_mem {α : Type} {l : List (String × α)} {k : String} {v : α}
    (h : lookupA l k = some v) : (k, v) ∈ l := by
  induction l with
  | nil => simp [lookupA] at h
  | cons p rest ih =>
    obtain ⟨k0, v0⟩ := p
    by_cases hk : k0 = k
    · simp [lookupA, hk] at h
      subst hk
      subst h
      exact List.mem_cons_self _ _
    · simp [lookupA, hk] at h
      exact List.mem_cons_of_mem _ (ih h)

/-! ## Characterisation of one learn event

The store fields after `addAdjective`, expressed over the input state.
In particular the confidence stored in the learning record is
`calculateConfidence` of the *input* state: the category-list updates
that precede it touch neither `contextPatterns` nor
`adjectiveFrequency`, and the frequency increment and contextPatterns
insertion happen after it. -/

theorem calculateConfidence_ignores_categories (s : VocabularyManager)
    (cats : List (String × List String)) (custom : List String) (w ctx : String) :
    calculateConfidence { s with categories := cats, customCategories := custom } w ctx =
      calculateConfidence s w ctx := rfl

theorem addAdjective_learningData_eq (s : VocabularyManager) (a c ctx : String) :
    (addAdjective s a c ctx).learningData =
      upsert s.learningData (normalizeWord a) (learnRecord s a c ctx) := by
  simp only [addAdjective, learnRecord]
  split_ifs <;> rfl

theorem addAdjective_adjectiveFrequency_eq (s : VocabularyManager) (a c ctx : String) :
    (addAdjective s a c ctx).adjectiveFrequency =
      upsert s.adjectiveFrequency (normalizeWord a)
        ((lookupA s.adjectiveFrequency (normalizeWord a)).getD 0 + 1) := by
  simp only [addAdjective]
  split_ifs <;> rfl

theorem addAdjective_learningData (s : VocabularyManager) (a c ctx k : String) :
    lookupA (addAdjective s a c ctx).learningData k =
      if k = normalizeWord a then some (learnRecord s a c ctx)
      else lookupA s.learningData k := by
  rw [addAdjective_learningData_eq]
  by_cases hk : k = normalizeWord a
  · subst hk
    simp [lookupA_upsert_self]
  · simp [hk, lookupA_upsert_ne _ _ _ _ hk]

theorem addAdjective_adjectiveFrequency (s : VocabularyManager) (a c ctx k : String) :
    lookupA (addAdjective s a c ctx).adjectiveFrequency k =
      if k = normalizeWord a then
        some ((lookupA s.adjectiveFrequency (normalizeWord a)).getD 0 + 1)
      else lookupA s.adjectiveFrequency k := by
  rw [addAdjective_adjectiveFrequency_eq]
  by_cases hk : k = normalizeWord a
  · subst hk
    simp [lookupA_upsert_self]
  · simp [hk, lookupA_upsert_ne _ _ _ _ hk]

theorem addAdjective_categories_eq (s : VocabularyManager) (a c ctx : String) :
    (addAdjective s a c ctx).categories =
      (let base :=
        if (lookupA s.categories c).isSome then s.categories
        else s.categories ++ [(c, [])]
       let ws := (lookupA base c).getD []
       if normalizeWord a ∈ ws then base else upsert base c (ws ++ [normalizeWord a])) := by
  simp only [addAdjective]
  split_ifs <;> rfl

theorem addAdjective_categories (s : VocabularyManager) (a c ctx k : String) :
    lookupA (addAdjective s a c ctx).categories k =
      if k = c then
        some (if normalizeWord a ∈ (lookupA s.categories c).getD [] then
                (lookupA s.categories c).getD []
              else (lookupA s.categories c).getD [] ++ [normalizeWord a])
      else lookupA s.categories k := by
  rw [addAdjective_categories_eq]
  cases hc : lookupA s.categories c with
  | none =>
    have hbase : lookupA (s.categories ++ [(c, [])]) c = some [] := by
      rw [lookupA_append, hc]
      simp [lookupA]
    by_cases hk : k = c
    · subst hk
      simp [hc, hbase, lookupA_upsert_self]
    · have hbne : lookupA (s.categories ++ [(c, [])]) k = lookupA s.categories k := by
        rw [lookupA_append]
        cases hsk : lookupA s.categories k <;> simp [lookupA, Ne.symm hk]
      simp only [hc, Option.isSome_none, Bool.false_eq_true, if_false, hbase,
        Option.getD_some, List.not_mem_nil, if_neg (fun h => h : ¬False), hk]
      simp [hk, lookupA_upsert_ne _ _ _ _ hk, hbne]
  | some ws =>
    by_cases hk : k = c
    · subst hk
      by_cases hw : normalizeWord a ∈ ws <;>
        simp [hc, hw, lookupA_upsert_self]
    · by_cases hw : normalizeWord a ∈ ws <;>
        simp [hc, hw, hk, lookupA_upsert_ne _ _ _ _ hk]

/-! ## Reachable-state invariants -/

/-- In every reachable state, each word's learning-record frequency
agrees with its frequency-table count: both are written from the same
pre-event count plus one on every learn event. -/
theorem reachable_frequency_sync {s : VocabularyManager} (hs : Reachable s) :
    ∀ w rec, lookupA s.learningData w = some rec →
      (lookupA s.adjectiveFrequency w).getD 0 = rec.frequency := by
  induction hs with
  | init => intro w rec h; simp [freshVocabulary, lookupA] at h
  | step s a c ctx _ ih =>
    intro w rec h
    rw [addAdjective_learningData] at h
    rw [addAdjective_adjectiveFrequency]
    by_cases hw : w = normalizeWord a
    · simp only [hw, if_pos rfl] at h ⊢
      cases h
      simp [learnRecord]
    · simp only [if_neg hw] at h ⊢
      exact ih w rec h

/-- In every reachable state, no category list holds a word twice: a
learn event appends a word only when it is absent. -/
theorem reachable_count_le_one {s : VocabularyManager} (hs : Reachable s) :
    ∀ c w, (getAdjectivesByCategory s c).count w ≤ 1 := by
  induction hs with
  | init =>
    intro c w
    unfold getAdjectivesByCategory
    cases hc : lookupA freshVocabulary.categories c with
    | none => simp
    | some ws =>
      have hws : ws ∈ freshVocabulary.categories.map Prod.snd :=
        List.mem_map_of_mem _ (lookupA_some_mem hc)
      have hnd : ws.Nodup := by
        simp only [freshVocabulary, List.map_cons, List.map_nil, List.mem_cons,
          List.not_mem_nil, or_false] at hws
        rcases hws with h | h | h | h | h <;> (subst h; decide)
      simpa using List.nodup_iff_count_le_one.mp hnd w
  | step s a c0 ctx _ ih =>
    intro c w
    unfold getAdjectivesByCategory
    rw [addAdjective_categories]
    have hcount := ih c w
    unfold getAdjectivesByCategory at hcount
    by_cases hc : c = c0
    · subst hc
      rw [if_pos rfl]
      by_cases hw : normalizeWord a ∈ (lookupA s.categories c).getD []
      · rw [if_pos hw]
        simpa using hcount
      · rw [if_neg hw]
        simp only [Option.getD_some]
        rw [List.count_append]
        rcases eq_or_ne w (normalizeWord a) with hwa | hwa
        · have h0 : ((lookupA s.categories c).getD []).count w = 0 := by
            rw [hwa]
            exact List.count_eq_zero_of_not_mem hw
          have h1 : ([normalizeWord a] : List String).count w ≤ 1 := by
            simp only [List.count_singleton']
            split <;> omega
          omega
        · have h1 : ([normalizeWord a] : List String).count w = 0 := by
            simp [List.count_singleton', Ne.symm hwa]
          omega
    · rw [if_neg hc]
      exact hcount

/-! ## Deduplication lemmas -/

theorem mem_dedupFirstAux_not_seen :
    ∀ (l seen : List String) (a : String), a ∈ dedupFirstAux seen l → a ∉ seen := by
  intro l
  induction l with
  | nil => intro seen a h; simp [dedupFirstAux] at h
  | cons b rest ih =>
    intro seen a h
    rw [dedupFirstAux] at h
    split_ifs at h with hb
    · exact ih seen a h
    · rcases List.mem_cons.mp h with h | h
      · exact h ▸ hb
      · exact fun hseen => ih (b :: seen) a h (List.mem_cons_of_mem _ hseen)

theorem nodup_dedupFirstAux :
    ∀ (l seen : List String), (dedupFirstAux seen l).Nodup := by
  intro l
  induction l with
  | nil => intro seen; simp [dedupFirstAux]
  | cons b rest ih =>
    intro seen
    rw [dedupFirstAux]
    split_ifs with hb
    · exact ih seen
    · refine List.nodup_cons.mpr ⟨fun hmem => ?_, ih (b :: seen)⟩
      exact mem_dedupFirstAux_not_seen _ _ _ hmem (List.mem_cons_self _ _)

theorem nodup_dedupFirst (l : List String) : (dedupFirst l).Nodup :=
  nodup_dedupFirstAux l []

theorem dedupFirstAux_append :
    ∀ (xs : List String) (seen : List String) (ys : List String),
      ∃ t, dedupFirstAux seen (xs ++ ys) = dedupFirstAux seen xs ++ t := by
  intro xs
  induction xs with
  | nil => intro seen ys; exact ⟨dedupFirstAux seen ys, by simp [dedupFirstAux]⟩
  | cons b rest ih =>
    intro seen ys
    rw [List.cons_append, dedupFirstAux]
    split_ifs with hb
    · obtain ⟨t, ht⟩ := ih seen ys
      exact ⟨t, by rw [ht, dedupFirstAux, if_pos hb]⟩
    · obtain ⟨t, ht⟩ := ih (b :: seen) ys
      exact ⟨t, by rw [ht, dedupFirstAux, if_neg hb, List.cons_append]⟩

theorem dedupFirst_append (xs ys : List String) :
    ∃ t, dedupFirst (xs ++ ys) = dedupFirst xs ++ t :=
  dedupFirstAux_append xs [] ys

/-! ## Claim C1 -/

/-- C1, counterexample: the claim that `detectCategory "serene" "title"`
returns `"mood"` is false — `"serene"` appears in the mood *seed
vocabulary*, but `detectCategory` consults only its own indicator
keyword lists, which do not contain it. -/
theorem c1_serene_not_mood : ¬ detectCategory "serene" "title" = "mood" := by
  decide

/-- C1, amended: classification is a pure function of the word and the
context, and for the word `"serene"` learned under context `"title"` it
deterministically returns the context-derived default `"descriptive"`,
not `"mood"`. -/
theorem c1_serene_descriptive : detectCategory "serene" "title" = "descriptive" := by
  decide

/-! ## Claim C2 -/

/-- The learning scenario of the spec, evaluated: the only candidates
the four extraction passes produce from this text that survive the
filters are `extraordinary` (suffix `y`) and `phenomenal` (suffix
`al`); `magnificent` ends in `ent`, which none of the patterns match. -/
theorem learnFromText_scenario_eq :
    (learnFromText freshVocabulary
        "This is a magnificent, extraordinary, and phenomenal photograph" "description").2 =
      ["extraordinary", "phenomenal"] := by
  decide

/-- C2, counterexample: `"magnificent"` is not in the learned-word list
for the spec's scenario text — it matches none of the four extraction
patterns, so the claim that the result contains it is false. -/
theorem c2_magnificent_not_learned :
    "magnificent" ∉ (learnFromText freshVocabulary
        "This is a magnificent, extraordinary, and phenomenal photograph" "description").2 := by
  rw [learnFromText_scenario_eq]
  decide

/-- C2, amended: learning the scenario text under context
`"description"` yields a learned-word list containing `"extraordinary"`
and `"phenomenal"` and none of the stoplisted function words `"the"`,
`"is"`, `"a"`, `"and"` (but not `"magnificent"`, which no extraction
pattern matches). -/
theorem c2_scenario_learned :
    "extraordinary" ∈ (learnFromText freshVocabulary
        "This is a magnificent, extraordinary, and phenomenal photograph" "description").2 ∧
    "phenomenal" ∈ (learnFromText freshVocabulary
        "This is a magnificent, extraordinary, and phenomenal photograph" "description").2 ∧
    "the" ∉ (learnFromText freshVocabulary
        "This is a magnificent, extraordinary, and phenomenal photograph" "description").2 ∧
    "is" ∉ (learnFromText freshVocabulary
        "This is a magnificent, extraordinary, and phenomenal photograph" "description").2 ∧
    "a" ∉ (learnFromText freshVocabulary
        "This is a magnificent, extraordinary, and phenomenal photograph" "description").2 ∧
    "and" ∉ (learnFromText freshVocabulary
        "This is a magnificent, extraordinary, and phenomenal photograph" "description").2 := by
  rw [learnFromText_scenario_eq]
  decide

/-! ## Claim C4 -/

/-- C4: exporting any store state and importing the snapshot into a
fresh instance reproduces identical vocabulary statistics, identical
per-category word lists, and an identical frequency-ranked list: none
of these read operations consults the `customCategories` field, which
is the only field the JSON round-trip alters. -/
theorem c4_export_import_round_trip (v : VocabularyManager) :
    getVocabularyStats (importVocabulary freshVocabulary (exportVocabulary v)) =
        getVocabularyStats v ∧
    (∀ c, getAdjectivesByCategory (importVocabulary freshVocabulary (exportVocabulary v)) c =
        getAdjectivesByCategory v c) ∧
    (∀ n, getMostFrequentAdjectives (importVocabulary freshVocabulary (exportVocabulary v)) n =
        getMostFrequentAdjectives v n) :=
  ⟨rfl, fun _ => rfl, fun _ => rfl⟩

/-! ## Claim C10 -/

/-- C10: the exported snapshot never carries dynamic-category markings —
serialisation maps the `customCategories` `Set` to an empty plain
object — so after `importVocabulary (exportVocabulary v)` the store's
`customCategories` is empty, while the category word lists, learning
records, frequency table and context patterns are all preserved. -/
theorem c10_custom_categories_lost (v : VocabularyManager) :
    (exportVocabulary v).customCategories = [] ∧
    (importVocabulary freshVocabulary (exportVocabulary v)).customCategories = [] ∧
    (importVocabulary freshVocabulary (exportVocabulary v)).categories = v.categories ∧
    (importVocabulary freshVocabulary (exportVocabulary v)).learningData = v.learningData ∧
    (importVocabulary freshVocabulary (exportVocabulary v)).adjectiveFrequency =
        v.adjectiveFrequency ∧
    (importVocabulary freshVocabulary (exportVocabulary v)).contextPatterns =
        v.contextPatterns ∧
    getFieldJs (encodeVocabulary v) "customCategories" = some (Json.obj []) :=
  ⟨rfl, rfl, rfl, rfl, rfl, rfl, rfl⟩

/-! ## Claim C3 -/

/-- The store's confidence computation agrees with the amended formula:
the difference is only the operand order of the frequency `min` and the
redundant lower clamp (the value is at least `1/2`). -/
theorem calculateConfidence_eq_amended (s : VocabularyManager) (w ctx : String) :
    calculateConfidence s w ctx = amendedConfidence s w ctx := by
  unfold calculateConfidence amendedConfidence
  dsimp only
  rw [min_comm (((lookupA s.adjectiveFrequency w).getD 0 : ℚ) * (1/20)) (3/10)]
  rw [max_eq_right]
  · split_ifs <;> first | rfl | (congr 1; ring)
  · have hnn : (0 : ℚ) ≤ ((lookupA s.adjectiveFrequency w).getD 0 : ℚ) * (1/20) := by
      positivity
    have hctx : (0 : ℚ) ≤ (if ctx = "title" ∨ ctx = "description" then (1 : ℚ)/10 else 0) := by
      split_ifs <;> norm_num
    have hcl : (0 : ℚ) ≤ ((s.contextPatterns.filter fun p => w ∈ p.2).length : ℚ) * (1/10) := by
      positivity
    have hmin : (0 : ℚ) ≤ min (3/10) (((lookupA s.adjectiveFrequency w).getD 0 : ℚ) * (1/20)) :=
      le_min (by norm_num) hnn
    have h1 : (0 : ℚ) ≤ 1/2 + ((s.contextPatterns.filter fun p => w ∈ p.2).length : ℚ) * (1/10) +
        min (3/10) (((lookupA s.adjectiveFrequency w).getD 0 : ℚ) * (1/20)) +
        (if ctx = "title" ∨ ctx = "description" then 1/10 else 0) := by
      split_ifs at hctx ⊢ <;> linarith
    exact le_min h1 (by norm_num)

/-- C3, counterexample: on the very first learn event for `"stunning"`
under context `"general"` from a fresh store, the stored confidence is
`0.5`, while the claim's formula — counting the triggering context and
the post-event frequency — yields `0.65`: the source computes the
confidence *before* recording the triggering context and incrementing
the frequency. -/
theorem c3_confidence_counterexample :
    (lookupA (addAdjective freshVocabulary "stunning" "descriptive" "general").learningData
        "stunning").map LearningData.confidence = some (1/2) ∧
    claimedConfidence 1 1 "general" = 13/20 ∧
    ((1 : ℚ)/2 ≠ 13/20) := by
  refine ⟨?_, ?_, by norm_num⟩
  · have h := addAdjective_learningData freshVocabulary "stunning" "descriptive" "general"
      "stunning"
    have hn : normalizeWord "stunning" = "stunning" := by decide
    rw [hn] at h
    rw [h, if_pos rfl]
    have hc : calculateConfidence freshVocabulary "stunning" "general" = 1/2 := by
      unfold calculateConfidence freshVocabulary
      dsimp only
      norm_num [lookupA]
      rw [if_neg (by decide)]
      exact min_eq_left (by norm_num)
    simp [learnRecord, hn, hc]
  · unfold claimedConfidence
    rw [if_neg (by decide)]
    rw [min_eq_right (by norm_num : ((1 : ℕ) : ℚ) * (1/20) ≤ 3/10)]
    rw [min_eq_left (by norm_num), max_eq_right (by norm_num)]
    norm_num

/-- C3, amended: after every learn event the stored per-word confidence
is recomputed from scratch — but from the aggregates as they stood
*before* the event: base `0.5`, plus `0.1` per distinct context that
already contained the word, plus `min(0.3, 0.05 × the pre-event
frequency)`, plus `0.1` for a `title`/`description` trigger, clamped to
`[0, 1]`. -/
theorem c3_confidence_pre_event (s : VocabularyManager) (a c ctx : String) :
    (lookupA (addAdjective s a c ctx).learningData (normalizeWord a)).map
        LearningData.confidence =
      some (amendedConfidence s (normalizeWord a) ctx) := by
  rw [addAdjective_learningData, if_pos rfl]
  simp [learnRecord, calculateConfidence_eq_amended]

/-! ## Claim C5 -/

/-- C5, counterexample: the malformed snapshot `\x7b\x7d` (an empty plain
object) is JSON-representable, so `importVocabulary` neither validates
nor rejects it: the call completes normally, the live store *is*
replaced by the malformed value, and the failure surfaces only on a
later read, where `getVocabularyStats` dereferences the missing
`categories` field. -/
theorem c5_malformed_import_counterexample :
    importVocabularyJs (Json.obj []) = Json.obj [] ∧
    Json.obj [] ≠ encodeVocabulary freshVocabulary ∧
    getVocabularyStatsJs (Json.obj []) = none := by
  refine ⟨rfl, ?_, rfl⟩
  intro h
  unfold encodeVocabulary at h
  injection h with h'
  exact List.cons_ne_nil _ _ h'.symm

/-- C5, amended: `importVocabulary` performs no validation — every
JSON-representable snapshot value, conforming or not, immediately and
wholesale replaces the live store without any failure being surfaced;
a well-formed exported snapshot yields a store whose statistics read
agrees with the typed state, while a malformed one fails only on later
reads. -/
theorem encode_all_isSome (cats : List (String × List String)) :
    (((cats.map fun p => (p.1, Json.arr (p.2.map Json.str))).map
        fun p => jsArrLength p.2).all Option.isSome) = true := by
  induction cats with
  | nil => rfl
  | cons p rest ih =>
    simp only [List.map_cons, List.all_cons, Bool.and_eq_true]
    exact ⟨rfl, ih⟩

theorem encode_lengths (cats : List (String × List String)) :
    ((cats.map fun p => (p.1, Json.arr (p.2.map Json.str))).map
        fun p => (jsArrLength p.2).getD 0) = cats.map fun p => p.2.length := by
  induction cats with
  | nil => rfl
  | cons p rest ih => simp_all [jsArrLength]

theorem encode_breakdown (cats : List (String × List String)) :
    ((cats.map fun p => (p.1, Json.arr (p.2.map Json.str))).map
        fun p => (p.1, (jsArrLength p.2).getD 0)) = cats.map fun p => (p.1, p.2.length) := by
  induction cats with
  | nil => rfl
  | cons p rest ih => simp_all [jsArrLength]

theorem c5_import_unvalidated (v : VocabularyManager) (snapshot : Json) :
    importVocabularyJs snapshot = snapshot ∧
    getVocabularyStatsJs (encodeVocabulary v) = some (getVocabularyStats v) := by
  refine ⟨rfl, ?_⟩
  have h1 : getFieldJs (encodeVocabulary v) "categories" =
      some (Json.obj (v.categories.map fun p => (p.1, Json.arr (p.2.map Json.str)))) := rfl
  have h2 : getFieldJs (encodeVocabulary v) "learningData" =
      some (Json.obj (v.learningData.map fun p => (p.1, encodeLearningData p.2))) := rfl
  unfold getVocabularyStatsJs
  rw [h1, h2]
  dsimp only
  rw [if_pos (encode_all_isSome v.categories)]
  unfold getVocabularyStats
  refine congrArg some ?_
  congr 1
  · exact congrArg List.sum (encode_lengths v.categories)
  · simp
  · simp
  · exact encode_breakdown v.categories

/-! ## Claim C8 -/

/-- C8: the per-photo confidence is `0.5` base, `+0.1` for a title,
`+0.2` for a description, `+0.1` for a non-empty tag list, `+0.1` for a
metadata map, capped at `1.0`; a photo with none of these fields
yields exactly `0.5`. -/
theorem c8_photo_confidence (photo : Photo) :
    agentCalculateConfidence photo = specPhotoConfidence photo ∧
    agentCalculateConfidence { id := "p" } = 1/2 := by
  constructor
  · unfold agentCalculateConfidence specPhotoConfidence
    dsimp only
    split_ifs <;> first | rfl | (congr 1; ring)
  · show min ((1 : ℚ)/2) 1 = 1/2
    exact min_eq_left (by norm_num)

/-! ## Claim C6 -/

/-- C6: from any state of the running system (reachable by learn/add
operations, under which no category list ever holds a word twice),
calling `addAdjective w c ctx` twice leaves category `c`'s word list
containing the normalised word exactly once, while its frequency-table
entry increases by exactly two — one increment per learn event. -/
theorem c6_double_add (s : VocabularyManager) (w c ctx : String) (hs : Reachable s) :
    (getAdjectivesByCategory (addAdjective (addAdjective s w c ctx) w c ctx) c).count
        (normalizeWord w) = 1 ∧
    (lookupA (addAdjective (addAdjective s w c ctx) w c ctx).adjectiveFrequency
        (normalizeWord w)).getD 0 =
      (lookupA s.adjectiveFrequency (normalizeWord w)).getD 0 + 2 := by
  constructor
  · unfold getAdjectivesByCategory
    rw [addAdjective_categories, if_pos rfl]
    have h1 : lookupA (addAdjective s w c ctx).categories c =
        some (if normalizeWord w ∈ (lookupA s.categories c).getD [] then
                (lookupA s.categories c).getD []
              else (lookupA s.categories c).getD [] ++ [normalizeWord w]) := by
      rw [addAdjective_categories, if_pos rfl]
    rw [h1]
    simp only [Option.getD_some]
    by_cases hw : normalizeWord w ∈ (lookupA s.categories c).getD []
    · rw [if_pos hw, if_pos hw]
      have hle := reachable_count_le_one hs c (normalizeWord w)
      unfold getAdjectivesByCategory at hle
      have hge : 0 < ((lookupA s.categories c).getD []).count (normalizeWord w) :=
        List.count_pos_iff.mpr hw
      omega
    · rw [if_neg hw]
      rw [if_pos (by simp :
        normalizeWord w ∈ (lookupA s.categories c).getD [] ++ [normalizeWord w])]
      rw [List.count_append]
      have h0 : ((lookupA s.categories c).getD []).count (normalizeWord w) = 0 :=
        List.count_eq_zero_of_not_mem hw
      simp [h0]
  · rw [addAdjective_adjectiveFrequency, if_pos rfl, Option.getD_some,
      addAdjective_adjectiveFrequency, if_pos rfl, Option.getD_some]

/-- C6, witness: the double add of `"elegant"` to the seeded category
`"mood"` of a fresh store. -/
theorem c6_double_add_witness :
    (getAdjectivesByCategory
        (addAdjective (addAdjective freshVocabulary "elegant" "mood" "general")
          "elegant" "mood" "general") "mood").count (normalizeWord "elegant") = 1 ∧
    (lookupA (addAdjective (addAdjective freshVocabulary "elegant" "mood" "general")
        "elegant" "mood" "general").adjectiveFrequency (normalizeWord "elegant")).getD 0 =
      (lookupA freshVocabulary.adjectiveFrequency (normalizeWord "elegant")).getD 0 + 2 :=
  c6_double_add freshVocabulary "elegant" "mood" "general" Reachable.init

/-! ## Claim C7 -/

/-- C7: for every photo, existing-word list, cap, option pair and
random oracle, the selector returns at most `max` words, with no
duplicates, beginning with the deduplicated `existing` words in their
given order (up to the cap); and when fewer than `max` unique words are
available in total it returns all of them. -/
theorem c7_selector_shape (s : VocabularyManager) (photo : Photo) (existing : List String)
    (max : ℕ) (useLearning preferFrequent : Bool) (pick : ℕ → ℕ) :
    (generateAdjectives s photo existing max useLearning preferFrequent pick).length ≤ max ∧
    (generateAdjectives s photo existing max useLearning preferFrequent pick).Nodup ∧
    (∃ t, (dedupFirst existing).take max ++ t =
        generateAdjectives s photo existing max useLearning preferFrequent pick) ∧
    ((dedupFirst
        (existing ++ generatedPool s photo existing useLearning preferFrequent pick)).length
          < max →
      generateAdjectives s photo existing max useLearning preferFrequent pick =
        dedupFirst
          (existing ++ generatedPool s photo existing useLearning preferFrequent pick)) := by
  refine ⟨?_, ?_, ?_, ?_⟩
  · unfold generateAdjectives
    rw [List.length_take]
    exact Nat.min_le_left _ _
  · unfold generateAdjectives
    exact List.Nodup.sublist (List.take_sublist _ _) (nodup_dedupFirst _)
  · unfold generateAdjectives
    obtain ⟨t, ht⟩ :=
      dedupFirst_append existing (generatedPool s photo existing useLearning preferFrequent pick)
    rw [ht, List.take_append_eq_append_take]
    exact ⟨_, rfl⟩
  · intro h
    unfold generateAdjectives
    exact List.take_of_length_le (Nat.le_of_lt h)

/-- C7, witness: on a fresh store, an empty photo, one existing word
and a cap of `100`, fewer than `100` unique words are available, and
the selector returns exactly the deduplicated concatenation. -/
theorem c7_selector_shape_witness :
    generateAdjectives freshVocabulary { id := "p" } ["alpha"] 100 true true (fun _ => 0) =
      dedupFirst (["alpha"] ++
        generatedPool freshVocabulary { id := "p" } ["alpha"] true true (fun _ => 0)) :=
  (c7_selector_shape freshVocabulary { id := "p" } ["alpha"] 100 true true
      (fun _ => 0)).2.2.2 (by decide)

/-! ## Claim C9 -/

/-- C9: in every state reachable from a fresh instance by learn/add
operations, every word holding a learning record has its record
frequency numerically equal to its frequency-table entry; and on each
learn event both counters are written as the pre-event table count plus
one — incremented exactly once per event. -/
theorem c9_frequency_sync :
    (∀ s : VocabularyManager, Reachable s → ∀ w rec,
        lookupA s.learningData w = some rec →
        (lookupA s.adjectiveFrequency w).getD 0 = rec.frequency) ∧
    (∀ (s : VocabularyManager) (a c ctx : String),
        (lookupA (addAdjective s a c ctx).adjectiveFrequency (normalizeWord a)).getD 0 =
          (lookupA s.adjectiveFrequency (normalizeWord a)).getD 0 + 1 ∧
        (lookupA (addAdjective s a c ctx).learningData (normalizeWord a)).map
            LearningData.frequency =
          some ((lookupA s.adjectiveFrequency (normalizeWord a)).getD 0 + 1)) := by
  refine ⟨fun s hs => reachable_frequency_sync hs, fun s a c ctx => ⟨?_, ?_⟩⟩
  · rw [addAdjective_adjectiveFrequency, if_pos rfl, Option.getD_some]
  · rw [addAdjective_learningData, if_pos rfl]
    rfl

/-- C9, witness: after one learn event for `"cozy"` from a fresh store,
the synchronisation yields a frequency-table count of one. -/
theorem c9_frequency_sync_witness :
    (lookupA (addAdjective freshVocabulary "cozy" "descriptive" "tag").adjectiveFrequency
        "cozy").getD 0 = 1 := by
  have h := c9_frequency_sync.1 (addAdjective freshVocabulary "cozy" "descriptive" "tag")
    (Reachable.step _ _ _ _ Reachable.init) "cozy"
  have hrec : lookupA (addAdjective freshVocabulary "cozy" "descriptive" "tag").learningData
      "cozy" = some (learnRecord freshVocabulary "cozy" "descriptive" "tag") := by
    have h2 := addAdjective_learningData freshVocabulary "cozy" "descriptive" "tag" "cozy"
    rwa [if_pos (by decide : "cozy" = normalizeWord "cozy")] at h2
  exact (h _ hrec).trans rfl

end Kanizsa
